import Mathlib

/-!
Verification of the watchdog subsystem (src/utils/watchdog.py).

The Python module is shallowly embedded below.  Wall-clock timestamps
(results of time.time()) are modelled as rationals, integers read from the
operating system (memory usage in kB from the ps query) as integers, and
Python class attribute tables as lists of attribute names.  The POSIX
watchdog state mirrors the instance attributes set by
WatchdogPosix.__init__; reset is a pure function from the observed inputs
(current time and the resident-memory reading) to an outcome plus the
successor state.  A destruct outcome models the os.kill(..., SIGKILL) call,
which never returns, so no later statement of reset runs after it.
-/

namespace DdWatchdog

/-- Timeframe of the activity history: WatchdogPosix._RESTART_TIMEFRAME = 60. -/
def RESTART_TIMEFRAME : ℚ := 60

/-- Attributes of class Watchdog (the abstract base class): it defines only
the three methods destruct, reset and watch, every one of which raises
NotImplementedError. -/
def classWatchdogAttrs : List String := ["destruct", "reset", "watch"]

/-- Attributes of class WatchdogPosix (which does not inherit from Watchdog). -/
def classWatchdogPosixAttrs : List String :=
  ["_RESTART_TIMEFRAME", "__init__", "self_destruct", "destruct", "_is_frenetic", "reset"]

/-- Python attribute lookup on a class object: returns the bound attribute
or an AttributeError, exactly as evaluating cls.name would. -/
def getattr (attrs : List String) (cls name : String) : Except String String :=
  if name ∈ attrs then Except.ok (cls ++ "." ++ name)
  else Except.error ("AttributeError: type object " ++ cls ++ " has no attribute " ++ name)

/-- Instance state of WatchdogPosix, as left by the assignments in __init__:
_duration, _max_mem_kb, memory_limit_enabled, _restarts (a deque, oldest
entry first) and _max_resets (None or an integer). -/
structure WatchdogPosixState where
  duration : ℕ
  maxMemKb : ℕ
  memoryLimitEnabled : Bool
  restarts : List ℚ
  maxResets : Option ℕ
deriving DecidableEq

/-- WatchdogPosix.__init__: self._max_mem_kb = 1024 * max_mem_mb. -/
def initMaxMemKb (maxMemMb : ℕ) : ℕ := 1024 * maxMemMb

/-- WatchdogPosix.__init__: max_mem_bytes = 1024 * self._max_mem_kb. -/
def initMaxMemBytes (maxMemMb : ℕ) : ℕ := 1024 * initMaxMemKb maxMemMb

/-- WatchdogPosix.__init__: the (soft, hard) pair handed to
resource.setrlimit(resource.RLIMIT_AS, (max_mem_bytes, max_mem_bytes)). -/
def initRlimitAS (maxMemMb : ℕ) : ℕ × ℕ := (initMaxMemBytes maxMemMb, initMaxMemBytes maxMemMb)

/-- Observable effects of a successful WatchdogPosix.__init__: the handler
installed for SIGALRM, the RLIMIT_AS pair installed (when a ceiling is
configured), and the instance state. -/
structure PosixInitEffects where
  sigalrmHandler : String
  rlimitAS : Option (ℕ × ℕ)
  state : WatchdogPosixState
deriving DecidableEq

/-- WatchdogPosix.__init__(duration, max_mem_mb, max_resets).  The second
statement evaluates Watchdog.self_destruct (an attribute lookup on the class
Watchdog) to install it as the SIGALRM handler; if that lookup raises, the
constructor propagates the exception and none of the later statements run. -/
def watchdogPosixInit (duration : ℕ) (maxMemMb : Option ℕ) (maxResets : Option ℕ) :
    Except String PosixInitEffects :=
  match getattr classWatchdogAttrs "Watchdog" "self_destruct" with
  | Except.error e => Except.error e
  | Except.ok handler =>
    match maxMemMb with
    | some m =>
      Except.ok
        { sigalrmHandler := handler
          rlimitAS := some (initRlimitAS m)
          state := { duration := duration, maxMemKb := initMaxMemKb m,
                     memoryLimitEnabled := true, restarts := [], maxResets := maxResets } }
    | none =>
      Except.ok
        { sigalrmHandler := handler
          rlimitAS := none
          state := { duration := duration, maxMemKb := 0,
                     memoryLimitEnabled := false, restarts := [], maxResets := maxResets } }

/-- Python truthiness of self._max_resets as used by the guard in reset:
None and 0 are falsy, every other integer is truthy. -/
def truthy : Option ℕ → Bool
  | none => false
  | some n => decide (n ≠ 0)

/-- The eviction loop of WatchdogPosix._is_frenetic:
while self._restarts and self._restarts 0 is less than now - 60, popleft. -/
def flushOld (now : ℚ) : List ℚ → List ℚ
  | [] => []
  | t :: rest => if t < now - RESTART_TIMEFRAME then flushOld now rest else t :: rest

/-- WatchdogPosix._is_frenetic: flush old activity history, then report
whether the remaining number of resets exceeds the configured maximum.
Returns the flag together with the flushed deque, since the eviction
mutates self._restarts. -/
def isFrenetic (now : ℚ) (restarts : List ℚ) (maxResets : ℕ) : Bool × List ℚ :=
  let flushed := flushOld now restarts
  (decide (flushed.length > maxResets), flushed)

/-- The memory threshold compared against in reset: 0.95 * self._max_mem_kb. -/
def memThresholdKb (maxMemKb : ℕ) : ℚ := (0.95 : ℚ) * maxMemKb

/-- Outcome of one WatchdogPosix.reset() call.  The two destruct outcomes
record which check called self.destruct(); since destruct sends SIGKILL to
the process itself and never returns, reset performs nothing afterwards.
A rearmed outcome records the argument of the final signal.alarm call. -/
inductive ResetOutcome
  | destructedMemory
  | destructedFrenetic
  | rearmed (alarmSeconds : ℕ)
deriving DecidableEq

/-- The activity branch of WatchdogPosix.reset: when self._max_resets is
truthy, append the current time to self._restarts and call _is_frenetic
(which flushes the deque); destruct on a frenetic verdict, otherwise fall
through to re-arming the alarm.  The _max_resets value read by _is_frenetic
is the integer stored in the state; the branch is only entered when it is
some nonzero integer, so the default in getD is never the value used. -/
def resetActivity (now : ℚ) (s : WatchdogPosixState) : ResetOutcome × WatchdogPosixState :=
  if truthy s.maxResets then
    let appended := s.restarts ++ [now]
    let fren := isFrenetic now appended (s.maxResets.getD 0)
    if fren.1 then (ResetOutcome.destructedFrenetic, { s with restarts := fren.2 })
    else (ResetOutcome.rearmed s.duration, { s with restarts := fren.2 })
  else (ResetOutcome.rearmed s.duration, s)

/-- WatchdogPosix.reset().  The memory reading memUsageKb is the integer
parsed from the ps process-status query; it is only consulted when the
memory limit is enabled.  now is the wall-clock time of the call. -/
def reset (now : ℚ) (memUsageKb : ℤ) (s : WatchdogPosixState) :
    ResetOutcome × WatchdogPosixState :=
  if s.memoryLimitEnabled then
    if (memUsageKb : ℚ) > memThresholdKb s.maxMemKb then
      (ResetOutcome.destructedMemory, s)
    else
      resetActivity now s
  else
    resetActivity now s

/-- Result of a finite sequence of reset calls: either the index (1-based)
of the call during which the watchdog destructed the process, or the state
left alive after all calls returned. -/
inductive RunResult
  | destructedAt (callIndex : ℕ)
  | alive (s : WatchdogPosixState)
deriving DecidableEq

/-- Whether a run ended in self-destruction. -/
def RunResult.destructed : RunResult → Bool
  | RunResult.destructedAt _ => true
  | RunResult.alive _ => false

/-- Run reset once per timestamp in the list (in order), all calls observing
the same resident-memory reading; k is the 1-based index of the next call. -/
def runResets (memKb : ℤ) : ℕ → List ℚ → WatchdogPosixState → RunResult
  | _, [], s => RunResult.alive s
  | k, t :: rest, s =>
    match reset t memKb s with
    | (ResetOutcome.rearmed _, s') => runResets memKb (k + 1) rest s'
    | (ResetOutcome.destructedMemory, _) => RunResult.destructedAt k
    | (ResetOutcome.destructedFrenetic, _) => RunResult.destructedAt k

/-- Initial WatchdogPosix state with no memory ceiling and a configured
reset cap: _restarts = deque([]) and _max_resets = max_resets, as set by
the tail of __init__. -/
def mkActivityState (d maxResets : ℕ) : WatchdogPosixState :=
  { duration := d, maxMemKb := 0, memoryLimitEnabled := false,
    restarts := [], maxResets := some maxResets }

/-- The window update performed by the activity branch of reset at time now:
append now, then let _is_frenetic flush entries older than the timeframe. -/
def activityStep (now : ℚ) (w : List ℚ) : List ℚ := flushOld now (w ++ [now])

/-- The activity window produced by a steady reset rate: the k-th reset
(counting from 0) happens at time k * r. -/
def steadyWindow (r : ℚ) : ℕ → List ℚ
  | 0 => activityStep 0 []
  | k + 1 => activityStep (((k + 1 : ℕ) : ℚ) * r) (steadyWindow r k)

/-- Actions performed by the two destruct routines.  The two log actions are
the log.error calls inside the try suite; the kill actions are the calls in
the finally suite (os.kill(os.getpid(), signal.SIGKILL) for the POSIX
engine, psutil.Process().kill() for the polling engine). -/
inductive DestructAction
  | logSelfDestructing
  | logTraceback
  | killOwnPidSigkill
  | killViaProcessHandle
deriving DecidableEq

/-- The try suite shared by both destruct routines: log.error of the
message, then log.error of the pending traceback.  A log call that raises
contributes no completed action and aborts the rest of the suite; by the
semantics of try/finally the finally suite runs in every case. -/
def tryLogs (log1ok log2ok : Bool) : List DestructAction :=
  if log1ok then
    if log2ok then [DestructAction.logSelfDestructing, DestructAction.logTraceback]
    else [DestructAction.logSelfDestructing]
  else []

/-- Completed actions of WatchdogPosix.self_destruct, as a function of
whether each log.error call succeeds: the finally suite issues
os.kill(os.getpid(), signal.SIGKILL) regardless. -/
def selfDestructTrace (log1ok log2ok : Bool) : List DestructAction :=
  tryLogs log1ok log2ok ++ [DestructAction.killOwnPidSigkill]

/-- Completed actions of WatchdogWindows.destruct: identical try suite, and
the finally suite issues psutil.Process().kill() regardless. -/
def windowsDestructTrace (log1ok log2ok : Bool) : List DestructAction :=
  tryLogs log1ok log2ok ++ [DestructAction.killViaProcessHandle]

/-- Python int() applied to a nonnegative or negative rational: truncation
toward zero. -/
def pyInt (q : ℚ) : ℤ := if 0 ≤ q then ⌊q⌋ else ⌈q⌉

/-- Instance state of WatchdogWindows: _duration = int(duration) and the
deadline expire_at. -/
structure WatchdogWindowsState where
  duration : ℤ
  expireAt : ℚ
deriving DecidableEq

/-- WatchdogWindows.reset(): expire_at = time.time() + self._duration. -/
def winReset (now : ℚ) (s : WatchdogWindowsState) : WatchdogWindowsState :=
  { s with expireAt := now + (s.duration : ℚ) }

/-- WatchdogWindows.__init__(duration) at time t0: coerce the duration with
int(), then call self.reset() (the thread is started afterwards). -/
def winInit (t0 : ℚ) (durationArg : ℚ) : WatchdogWindowsState :=
  winReset t0 { duration := pyInt durationArg, expireAt := 0 }

/-- The sleep argument of the watch loop: self._duration / 20.  Both
operands are Python 2 integers (self._duration = int(duration)), so the
division is integer floor division: a duration of 5 sleeps 0 seconds
between checks, a duration of 30 sleeps 1 second, never a fraction. -/
def winSleepInterval (s : WatchdogWindowsState) : ℤ := Int.fdiv s.duration 20

/-- Time of the i-th deadline check of the watch loop (i counted from 0):
the loop checks on entry and then once per sleep interval. -/
def winCheckTime (t0 : ℚ) (s : WatchdogWindowsState) (i : ℕ) : ℚ :=
  t0 + i * (winSleepInterval s : ℚ)

/-- Whether the i-th check of the watch loop fires:
time.time() > self.expire_at. -/
def winFiresAt (t0 : ℚ) (s : WatchdogWindowsState) (i : ℕ) : Bool :=
  decide (winCheckTime t0 s i > s.expireAt)

/-- Events of the polling engine relevant to the lock discipline around the
shared deadline field expire_at. -/
inductive WinEvent
  | acquireLock
  | releaseLock
  | writeExpireAt
  | readExpireAt
  | callTimeTime
  | sleepCall
deriving DecidableEq

/-- Event sequence of WatchdogWindows.reset(): the with self.tlock block
around the assignment self.expire_at = time.time() + self._duration. -/
def winResetEvents : List WinEvent :=
  [WinEvent.acquireLock, WinEvent.callTimeTime, WinEvent.writeExpireAt, WinEvent.releaseLock]

/-- Event sequence of one iteration of WatchdogWindows.watch():
the test time.time() > self.expire_at followed by time.sleep; no lock is
taken anywhere in the loop body. -/
def winWatchIterationEvents : List WinEvent :=
  [WinEvent.callTimeTime, WinEvent.readExpireAt, WinEvent.sleepCall]

/-- Checks that every read or write of expire_at in the event list happens
while the lock depth is positive. -/
def expireAtAccessesLocked : ℕ → List WinEvent → Bool
  | _, [] => true
  | depth, e :: rest =>
    match e with
    | WinEvent.acquireLock => expireAtAccessesLocked (depth + 1) rest
    | WinEvent.releaseLock => expireAtAccessesLocked (depth - 1) rest
    | WinEvent.writeExpireAt => decide (0 < depth) && expireAtAccessesLocked depth rest
    | WinEvent.readExpireAt => decide (0 < depth) && expireAtAccessesLocked depth rest
    | WinEvent.callTimeTime => expireAtAccessesLocked depth rest
    | WinEvent.sleepCall => expireAtAccessesLocked depth rest

/-! ## Helper lemmas -/

theorem flushOld_cons_of_lt {now a : ℚ} (l : List ℚ) (h : a < now - RESTART_TIMEFRAME) :
    flushOld now (a :: l) = flushOld now l := by
  simp [flushOld, h]

theorem flushOld_cons_of_ge {now a : ℚ} (l : List ℚ) (h : ¬ a < now - RESTART_TIMEFRAME) :
    flushOld now (a :: l) = a :: l := by
  simp [flushOld, h]

theorem flushOld_of_forall_ge {now : ℚ} {l : List ℚ}
    (h : ∀ t ∈ l, ¬ t < now - RESTART_TIMEFRAME) : flushOld now l = l := by
  cases l with
  | nil => rfl
  | cons a rest => exact flushOld_cons_of_ge rest (h a (List.mem_cons_self a rest))

theorem flushOld_length_le (now : ℚ) (l : List ℚ) : (flushOld now l).length ≤ l.length := by
  induction l with
  | nil => simp [flushOld]
  | cons a rest ih =>
    by_cases h : a < now - RESTART_TIMEFRAME
    · rw [flushOld_cons_of_lt rest h]
      exact Nat.le_succ_of_le ih
    · rw [flushOld_cons_of_ge rest h]

theorem flushOld_mem_ge (now : ℚ) (l : List ℚ) (hs : l.Sorted (· ≤ ·)) :
    ∀ t ∈ flushOld now l, now - RESTART_TIMEFRAME ≤ t := by
  induction l with
  | nil => simp [flushOld]
  | cons a rest ih =>
    rw [List.sorted_cons] at hs
    by_cases h : a < now - RESTART_TIMEFRAME
    · rw [flushOld_cons_of_lt rest h]
      exact ih hs.2
    · rw [flushOld_cons_of_ge rest h]
      intro t ht
      rcases List.mem_cons.mp ht with rfl | ht
      · exact le_of_not_lt h
      · exact le_trans (le_of_not_lt h) (hs.1 t ht)

theorem flushOld_sorted (now : ℚ) (l : List ℚ) (hs : l.Sorted (· ≤ ·)) :
    (flushOld now l).Sorted (· ≤ ·) := by
  induction l with
  | nil => exact hs
  | cons a rest ih =>
    rw [List.sorted_cons] at hs
    by_cases h : a < now - RESTART_TIMEFRAME
    · rw [flushOld_cons_of_lt rest h]
      exact ih hs.2
    · rw [flushOld_cons_of_ge rest h]
      exact List.sorted_cons.mpr hs

theorem flushOld_idem (now : ℚ) (l : List ℚ) :
    flushOld now (flushOld now l) = flushOld now l := by
  induction l with
  | nil => rfl
  | cons a rest ih =>
    by_cases h : a < now - RESTART_TIMEFRAME
    · rw [flushOld_cons_of_lt rest h]
      exact ih
    · rw [flushOld_cons_of_ge rest h, flushOld_cons_of_ge rest h]

theorem resetActivity_fst_ne_memory (now : ℚ) (s : WatchdogPosixState) :
    (resetActivity now s).1 ≠ ResetOutcome.destructedMemory := by
  unfold resetActivity
  split
  · dsimp only
    split <;> simp
  · simp

theorem reset_of_memory_trigger {s : WatchdogPosixState} {now : ℚ} {u : ℤ}
    (hen : s.memoryLimitEnabled = true) (hu : (u : ℚ) > memThresholdKb s.maxMemKb) :
    reset now u s = (ResetOutcome.destructedMemory, s) := by
  rw [reset, if_pos hen, if_pos hu]

theorem reset_of_memory_pass {s : WatchdogPosixState} {now : ℚ} {u : ℤ}
    (hu : ¬ (u : ℚ) > memThresholdKb s.maxMemKb) :
    reset now u s = resetActivity now s := by
  rw [reset]
  by_cases hen : s.memoryLimitEnabled = true
  · rw [if_pos hen, if_neg hu]
  · rw [if_neg hen]

theorem reset_of_memory_disabled {s : WatchdogPosixState} {now : ℚ} {u : ℤ}
    (hen : s.memoryLimitEnabled = false) :
    reset now u s = resetActivity now s := by
  rw [reset, if_neg (by simp [hen])]

theorem resetActivity_of_not_truthy {s : WatchdogPosixState} {now : ℚ}
    (h : truthy s.maxResets = false) :
    resetActivity now s = (ResetOutcome.rearmed s.duration, s) := by
  rw [resetActivity, if_neg (by simp [h])]

theorem resetActivity_of_truthy {s : WatchdogPosixState} {now : ℚ} {N : ℕ}
    (h : s.maxResets = some N) (hN : N ≠ 0) :
    resetActivity now s =
      if (isFrenetic now (s.restarts ++ [now]) N).1 then
        (ResetOutcome.destructedFrenetic,
          { s with restarts := (isFrenetic now (s.restarts ++ [now]) N).2 })
      else
        (ResetOutcome.rearmed s.duration,
          { s with restarts := (isFrenetic now (s.restarts ++ [now]) N).2 }) := by
  rw [resetActivity, if_pos (by simp [truthy, h, hN])]
  simp [h]

theorem runResets_maxResetsZero (memKb : ℤ) :
    ∀ (ts : List ℚ) (k : ℕ) (s : WatchdogPosixState),
      s.maxResets = some 0 → s.memoryLimitEnabled = false →
      runResets memKb k ts s = RunResult.alive s := by
  intro ts
  induction ts with
  | nil => intro k s _ _; rfl
  | cons t rest ih =>
    intro k s hmr hmem
    have hreset : reset t memKb s = (ResetOutcome.rearmed s.duration, s) := by
      rw [reset_of_memory_disabled hmem,
        resetActivity_of_not_truthy (by simp [truthy, hmr])]
    simp only [runResets, hreset]
    exact ih (k + 1) s hmr hmem

theorem runResets_destructs (N : ℕ) (hN : 0 < N) (memKb : ℤ) :
    ∀ (pending done : List ℚ) (s : WatchdogPosixState),
      s.maxResets = some N →
      s.memoryLimitEnabled = false →
      s.restarts = done →
      (∀ a ∈ done ++ pending, ∀ b ∈ done ++ pending, a - b ≤ 60) →
      done.length + pending.length = N + 1 →
      done.length ≤ N →
      runResets memKb (done.length + 1) pending s = RunResult.destructedAt (N + 1) := by
  have hN0 := Nat.pos_iff_ne_zero.mp hN
  intro pending
  induction pending with
  | nil =>
    intro done s _ _ _ _ hlen hle
    simp only [List.length_nil] at hlen
    exact absurd hlen (by omega)
  | cons t rest ih =>
    intro done s hmr hmem hres hspan hlen hle
    simp only [List.length_cons] at hlen
    have htL : t ∈ done ++ t :: rest := List.mem_append.mpr (Or.inr (List.mem_cons_self t rest))
    have hhead : ∀ x ∈ done ++ [t], ¬ x < t - RESTART_TIMEFRAME := by
      intro x hx
      have hxL : x ∈ done ++ t :: rest := by
        rcases List.mem_append.mp hx with h | h
        · exact List.mem_append.mpr (Or.inl h)
        · simp only [List.mem_singleton] at h
          subst h
          exact htL
      have := hspan t htL x hxL
      rw [RESTART_TIMEFRAME]
      linarith
    have hflush : flushOld t (done ++ [t]) = done ++ [t] := flushOld_of_forall_ge hhead
    have hfren2 : isFrenetic t (s.restarts ++ [t]) N =
        (decide (done.length + 1 > N), done ++ [t]) := by
      rw [hres]
      simp [isFrenetic, hflush]
    rcases Nat.lt_or_ge done.length N with hlt | hge
    · have hfren_false : (isFrenetic t (s.restarts ++ [t]) N).1 = false := by
        rw [hfren2]
        simp only []
        simp only [decide_eq_false_iff_not, gt_iff_lt, not_lt]
        omega
      have hreset : reset t memKb s = (ResetOutcome.rearmed s.duration,
          { s with restarts := (isFrenetic t (s.restarts ++ [t]) N).2 }) := by
        rw [reset_of_memory_disabled hmem, resetActivity_of_truthy hmr hN0,
          if_neg (by simp [hfren_false])]
      have hs2 : ({ s with restarts := (isFrenetic t (s.restarts ++ [t]) N).2 } :
          WatchdogPosixState) = { s with restarts := done ++ [t] } := by
        rw [hfren2]
      rw [hs2] at hreset
      have hrec := ih (done ++ [t]) { s with restarts := done ++ [t] }
        (by simp [hmr]) (by simp [hmem]) rfl
        (by
          have hL : (done ++ [t]) ++ rest = done ++ t :: rest := by simp
          rw [hL]
          exact hspan)
        (by simp only [List.length_append, List.length_singleton]; omega)
        (by simp only [List.length_append, List.length_singleton]; omega)
      simp only [List.length_append, List.length_singleton] at hrec
      simp only [runResets, hreset]
      exact hrec
    · have hdone : done.length = N := le_antisymm hle hge
      have hfren_true : (isFrenetic t (s.restarts ++ [t]) N).1 = true := by
        rw [hfren2]
        simp only []
        simp only [decide_eq_true_eq, gt_iff_lt]
        omega
      have hreset : reset t memKb s = (ResetOutcome.destructedFrenetic,
          { s with restarts := (isFrenetic t (s.restarts ++ [t]) N).2 }) := by
        rw [reset_of_memory_disabled hmem, resetActivity_of_truthy hmr hN0,
          if_pos hfren_true]
      simp only [runResets, hreset]
      rw [hdone]

theorem runResets_alive (N : ℕ) (memKb : ℤ) :
    ∀ (pending : List ℚ) (k : ℕ) (s : WatchdogPosixState),
      s.maxResets = some N →
      s.memoryLimitEnabled = false →
      s.restarts.length + pending.length ≤ N →
      ∃ s', runResets memKb k pending s = RunResult.alive s' := by
  intro pending
  induction pending with
  | nil =>
    intro k s _ _ _
    exact ⟨s, rfl⟩
  | cons t rest ih =>
    intro k s hmr hmem hlen
    simp only [List.length_cons] at hlen
    rcases Nat.eq_zero_or_pos N with hNz | hNpos
    · subst hNz
      have hreset : reset t memKb s = (ResetOutcome.rearmed s.duration, s) := by
        rw [reset_of_memory_disabled hmem, resetActivity_of_not_truthy (by simp [truthy, hmr])]
      simp only [runResets, hreset]
      exact ih (k + 1) s hmr hmem (by omega)
    · have hN0 := Nat.pos_iff_ne_zero.mp hNpos
      have hflen : (flushOld t (s.restarts ++ [t])).length ≤ s.restarts.length + 1 := by
        calc (flushOld t (s.restarts ++ [t])).length ≤ (s.restarts ++ [t]).length :=
              flushOld_length_le _ _
          _ = s.restarts.length + 1 := by simp
      have hfren_false : (isFrenetic t (s.restarts ++ [t]) N).1 = false := by
        simp only [isFrenetic, decide_eq_false_iff_not, gt_iff_lt, not_lt]
        omega
      have hreset : reset t memKb s = (ResetOutcome.rearmed s.duration,
          { s with restarts := (isFrenetic t (s.restarts ++ [t]) N).2 }) := by
        rw [reset_of_memory_disabled hmem, resetActivity_of_truthy hmr hN0,
          if_neg (by simp [hfren_false])]
      simp only [runResets, hreset]
      apply ih (k + 1)
      · simp [hmr]
      · simp [hmem]
      · simp only [isFrenetic]
        omega

theorem steadyCap_mul_le (r : ℚ) (hr : 0 < r) :
    ((⌊(60 : ℚ) / r⌋.toNat : ℚ)) * r ≤ 60 ∧ 60 < ((⌊(60 : ℚ) / r⌋.toNat : ℚ) + 1) * r := by
  have h0 : (0 : ℚ) ≤ 60 / r := by positivity
  have hnn : (0 : ℤ) ≤ ⌊(60 : ℚ) / r⌋ := Int.floor_nonneg.mpr h0
  have hcast : ((⌊(60 : ℚ) / r⌋.toNat : ℚ)) = ((⌊(60 : ℚ) / r⌋ : ℤ) : ℚ) := by
    exact_mod_cast congrArg (fun z : ℤ => (z : ℚ)) (Int.toNat_of_nonneg hnn)
  constructor
  · have h2 : ((⌊(60 : ℚ) / r⌋.toNat : ℚ)) ≤ 60 / r := by
      rw [hcast]
      exact Int.floor_le _
    calc ((⌊(60 : ℚ) / r⌋.toNat : ℚ)) * r ≤ (60 / r) * r :=
          mul_le_mul_of_nonneg_right h2 hr.le
      _ = 60 := div_mul_cancel₀ 60 (ne_of_gt hr)
  · have h2 : 60 / r < ((⌊(60 : ℚ) / r⌋.toNat : ℚ)) + 1 := by
      rw [hcast]
      exact Int.lt_floor_add_one _
    calc (60 : ℚ) = (60 / r) * r := (div_mul_cancel₀ 60 (ne_of_gt hr)).symm
      _ < (((⌊(60 : ℚ) / r⌋.toNat : ℚ)) + 1) * r := mul_lt_mul_of_pos_right h2 hr

theorem steadyWindow_eq_of_le (r : ℚ) (hr : 0 < r) :
    ∀ k : ℕ, k ≤ ⌊(60 : ℚ) / r⌋.toNat →
      steadyWindow r k = (List.range (k + 1)).map (fun i : ℕ => (i : ℚ) * r) := by
  intro k
  induction k with
  | zero =>
    intro _
    show activityStep 0 [] = _
    rw [activityStep, List.nil_append,
      flushOld_of_forall_ge (by
        intro t ht
        simp only [List.mem_singleton] at ht
        subst ht
        rw [RESTART_TIMEFRAME]
        norm_num)]
    simp [List.range_succ]
  | succ k ih =>
    intro hk1
    have hcap := steadyCap_mul_le r hr
    simp only [steadyWindow]
    rw [ih (le_trans (Nat.le_succ k) hk1), activityStep]
    have happ : (List.range (k + 1)).map (fun i : ℕ => (i : ℚ) * r) ++ [((k + 1 : ℕ) : ℚ) * r] =
        (List.range (k + 2)).map (fun i : ℕ => (i : ℚ) * r) := by
      conv_rhs => rw [show k + 2 = (k + 1) + 1 from rfl, List.range_succ]
      rw [List.map_append]
      simp
    rw [happ, flushOld_of_forall_ge ?step]
    case step =>
      intro t ht
      simp only [List.mem_map, List.mem_range] at ht
      obtain ⟨i, hi, rfl⟩ := ht
      rw [RESTART_TIMEFRAME]
      have h1 : ((k + 1 : ℕ) : ℚ) - (i : ℚ) ≤ ((⌊(60 : ℚ) / r⌋.toNat : ℚ)) := by
        have hk1' : ((k + 1 : ℕ) : ℚ) ≤ ((⌊(60 : ℚ) / r⌋.toNat : ℚ)) := by
          exact_mod_cast hk1
        have hi0 : (0 : ℚ) ≤ (i : ℚ) := by positivity
        linarith
      have h2 := mul_le_mul_of_nonneg_right h1 hr.le
      rw [sub_mul] at h2
      push_cast at h2 ⊢
      linarith [hcap.1]

theorem steadyWindow_eq_of_ge (r : ℚ) (hr : 0 < r) :
    ∀ k : ℕ, ⌊(60 : ℚ) / r⌋.toNat ≤ k →
      steadyWindow r k =
        (List.range (⌊(60 : ℚ) / r⌋.toNat + 1)).map
          (fun j : ℕ => ((k - ⌊(60 : ℚ) / r⌋.toNat + j : ℕ) : ℚ) * r) := by
  intro k hk
  induction k, hk using Nat.le_induction with
  | base =>
    rw [steadyWindow_eq_of_le r hr _ le_rfl]
    simp only [Nat.sub_self, Nat.zero_add]
  | succ k hk ih =>
    have hcap := steadyCap_mul_le r hr
    simp only [steadyWindow]
    rw [ih, activityStep]
    have harg : k - ⌊(60 : ℚ) / r⌋.toNat + (⌊(60 : ℚ) / r⌋.toNat + 1) = k + 1 := by omega
    have happ : (List.range (⌊(60 : ℚ) / r⌋.toNat + 1)).map
          (fun j : ℕ => ((k - ⌊(60 : ℚ) / r⌋.toNat + j : ℕ) : ℚ) * r) ++ [((k + 1 : ℕ) : ℚ) * r] =
        (List.range (⌊(60 : ℚ) / r⌋.toNat + 2)).map
          (fun j : ℕ => ((k - ⌊(60 : ℚ) / r⌋.toNat + j : ℕ) : ℚ) * r) := by
      conv_rhs => rw [show ⌊(60 : ℚ) / r⌋.toNat + 2 = (⌊(60 : ℚ) / r⌋.toNat + 1) + 1 from rfl,
        List.range_succ]
      rw [List.map_append]
      simp only [List.map_cons, List.map_nil]
      rw [harg]
    rw [happ, show ⌊(60 : ℚ) / r⌋.toNat + 2 = (⌊(60 : ℚ) / r⌋.toNat + 1) + 1 from rfl,
      List.range_succ_eq_map, List.map_cons, List.map_map]
    rw [flushOld_cons_of_lt _ ?drop]
    case drop =>
      rw [RESTART_TIMEFRAME]
      have hsub : ((k - ⌊(60 : ℚ) / r⌋.toNat + 0 : ℕ) : ℚ) =
          (k : ℚ) - ((⌊(60 : ℚ) / r⌋.toNat : ℚ)) := by
        push_cast [Nat.cast_sub hk]
        ring
      rw [hsub]
      have e1 : ((k : ℚ) - ((⌊(60 : ℚ) / r⌋.toNat : ℚ))) * r =
          (k : ℚ) * r - ((⌊(60 : ℚ) / r⌋.toNat : ℚ)) * r := by ring
      have e2 : ((k + 1 : ℕ) : ℚ) * r = (k : ℚ) * r + r := by push_cast; ring
      have e3 : (((⌊(60 : ℚ) / r⌋.toNat : ℚ)) + 1) * r =
          ((⌊(60 : ℚ) / r⌋.toNat : ℚ)) * r + r := by ring
      rw [e1, e2]
      have := hcap.2
      rw [e3] at this
      linarith
    rw [flushOld_of_forall_ge ?rest]
    case rest =>
      intro t ht
      simp only [List.mem_map, List.mem_range, Function.comp_apply] at ht
      obtain ⟨j, hj, rfl⟩ := ht
      rw [RESTART_TIMEFRAME]
      have hsub : ((k - ⌊(60 : ℚ) / r⌋.toNat + (j + 1) : ℕ) : ℚ) =
          (k : ℚ) - ((⌊(60 : ℚ) / r⌋.toNat : ℚ)) + (j : ℚ) + 1 := by
        push_cast [Nat.cast_sub hk]
        ring
      rw [hsub]
      have e1 : ((k : ℚ) - ((⌊(60 : ℚ) / r⌋.toNat : ℚ)) + (j : ℚ) + 1) * r =
          (k : ℚ) * r - ((⌊(60 : ℚ) / r⌋.toNat : ℚ)) * r + (j : ℚ) * r + r := by ring
      have e2 : ((k + 1 : ℕ) : ℚ) * r = (k : ℚ) * r + r := by push_cast; ring
      have hjr : (0 : ℚ) ≤ (j : ℚ) * r := mul_nonneg (by positivity) hr.le
      rw [e1, e2]
      linarith [hcap.1]
    apply List.map_congr_left
    intro j hj
    simp only [Function.comp_apply]
    have harg2 : k - ⌊(60 : ℚ) / r⌋.toNat + (j + 1) = k + 1 - ⌊(60 : ℚ) / r⌋.toNat + j := by
      omega
    rw [harg2]

/-! ## Claim C2: frenetic-activity check -/

/-- C2.  With a positive cap N configured: N + 1 resets whose timestamps all
lie within a 60-second span destruct the process on the (N + 1)-th call, and
N resets spread evenly across strictly more than 60 seconds never destruct. -/
theorem c2_frenetic_window (d N : ℕ) (hN : 0 < N) (memKb : ℤ) :
    (∀ ts : List ℚ, ts.length = N + 1 →
        (∀ a ∈ ts, ∀ b ∈ ts, a - b ≤ 60) →
        runResets memKb 1 ts (mkActivityState d N) = RunResult.destructedAt (N + 1))
    ∧ (∀ t0 dl : ℚ, 0 < dl → 60 < ((N : ℚ) - 1) * dl →
        (runResets memKb 1 ((List.range N).map fun i : ℕ => t0 + (i : ℚ) * dl)
            (mkActivityState d N)).destructed = false) := by
  constructor
  · intro ts hlen hspan
    have h := runResets_destructs N hN memKb ts [] (mkActivityState d N) rfl rfl rfl
      (by simpa using hspan) (by simpa using hlen) (by simp)
    simpa using h
  · intro t0 dl _ _
    obtain ⟨s', hs'⟩ := runResets_alive N memKb
      ((List.range N).map fun i : ℕ => t0 + (i : ℚ) * dl) 1 (mkActivityState d N) rfl rfl
      (by
        have hmap : ((List.range N).map fun i : ℕ => t0 + (i : ℚ) * dl).length = N := by
          rw [List.length_map, List.length_range]
        rw [hmap]
        simp [mkActivityState])
    rw [hs']
    rfl

/-- C2 witness: cap N = 2.  Three resets at 0, 1, 2 seconds destruct on the
third call; two resets 61 seconds apart stay alive. -/
theorem c2_witness :
    runResets 0 1 [0, 1, 2] (mkActivityState 5 2) = RunResult.destructedAt 3
    ∧ (runResets 0 1 ((List.range 2).map fun i : ℕ => 0 + (i : ℚ) * 61)
        (mkActivityState 5 2)).destructed = false := by
  constructor
  · exact (c2_frenetic_window 5 2 (by norm_num) 0).1 [0, 1, 2] (by norm_num) (by norm_num)
  · exact (c2_frenetic_window 5 2 (by norm_num) 0).2 0 61 (by norm_num) (by norm_num)

/-! ## Claim C1: construction of the POSIX engine -/

/-- C1.  The claim states that WatchdogPosix.__init__ succeeds and installs
an existing self-destruct routine as the SIGALRM handler.  On the code this
fails: the handler expression Watchdog.self_destruct names an attribute the
class Watchdog does not have (self_destruct is defined on WatchdogPosix,
which does not inherit from Watchdog), so for every argument triple the
constructor raises AttributeError and no watchdog is built. -/
theorem c1_init_raises_attribute_error :
    (∀ (d : ℕ) (mm mr : Option ℕ),
        watchdogPosixInit d mm mr =
          Except.error "AttributeError: type object Watchdog has no attribute self_destruct")
    ∧ "self_destruct" ∈ classWatchdogPosixAttrs
    ∧ "self_destruct" ∉ classWatchdogAttrs := by
  refine ⟨?_, by decide, by decide⟩
  intro d mm mr
  have h : getattr classWatchdogAttrs "Watchdog" "self_destruct" =
      Except.error "AttributeError: type object Watchdog has no attribute self_destruct" := by
    rw [getattr, if_neg (by decide)]
    rfl
  rw [watchdogPosixInit, h]

/-! ## Claim C5: memory-limit arithmetic -/

/-- C5.  With a configured ceiling of maxMemMb megabytes, the RLIMIT_AS pair
installed by __init__ is the ceiling in bytes (soft = hard =
maxMemMb * 1024 * 1024), and the soft-check threshold used by reset is 95
percent of maxMemMb * 1024 kilobytes. -/
theorem c5_memory_limit_arithmetic (maxMemMb : ℕ) :
    initRlimitAS maxMemMb = (maxMemMb * 1024 * 1024, maxMemMb * 1024 * 1024)
    ∧ memThresholdKb (initMaxMemKb maxMemMb) = 95 / 100 * (maxMemMb * 1024) := by
  constructor
  · rw [initRlimitAS, initMaxMemBytes, initMaxMemKb]
    norm_num [Nat.mul_comm, Nat.mul_assoc]
  · rw [memThresholdKb, initMaxMemKb]
    push_cast
    ring

/-! ## Claim C3: memory-ceiling boundary -/

/-- C3.  With a ceiling of M megabytes configured, a reset observing
resident usage equal to 94 percent of the ceiling does not destruct via the
memory check, one observing 96 percent destructs on that same call, and in
general the memory check fires exactly when usage strictly exceeds 95
percent of the ceiling. -/
theorem c3_memory_ceiling_boundary (M : ℕ) (hM : 0 < M) (s : WatchdogPosixState) (now : ℚ)
    (u94 u96 : ℤ) (hen : s.memoryLimitEnabled = true) (hkb : s.maxMemKb = 1024 * M)
    (h94 : (u94 : ℚ) = 94 / 100 * (1024 * (M : ℚ)))
    (h96 : (u96 : ℚ) = 96 / 100 * (1024 * (M : ℚ))) :
    (reset now u94 s).1 ≠ ResetOutcome.destructedMemory
    ∧ reset now u96 s = (ResetOutcome.destructedMemory, s)
    ∧ (∀ u : ℤ, ((reset now u s).1 = ResetOutcome.destructedMemory ↔
        (u : ℚ) > 95 / 100 * (1024 * (M : ℚ)))) := by
  have hMq : (0 : ℚ) < M := by exact_mod_cast hM
  have hthr : memThresholdKb s.maxMemKb = 95 / 100 * (1024 * (M : ℚ)) := by
    rw [hkb, memThresholdKb]
    push_cast
    ring_nf
  refine ⟨?_, ?_, ?_⟩
  · have h94le : ¬ ((u94 : ℚ) > memThresholdKb s.maxMemKb) := by
      rw [hthr, h94]
      push_neg
      nlinarith
    rw [reset_of_memory_pass h94le]
    exact resetActivity_fst_ne_memory now s
  · have h96gt : (u96 : ℚ) > memThresholdKb s.maxMemKb := by
      rw [hthr, h96]
      nlinarith
    exact reset_of_memory_trigger hen h96gt
  · intro u
    by_cases hu : (u : ℚ) > memThresholdKb s.maxMemKb
    · rw [reset_of_memory_trigger hen hu]
      have hu' : (u : ℚ) > 95 / 100 * (1024 * (M : ℚ)) := by rw [← hthr]; exact hu
      simp [hu']
    · rw [reset_of_memory_pass hu]
      constructor
      · intro h
        exact absurd h (resetActivity_fst_ne_memory now s)
      · intro h
        exact absurd (by rw [hthr]; exact h) hu

/-- C3 witness: ceiling 25 MB (25600 kB); usage 24064 kB (94 percent) does
not trigger the memory check, usage 24576 kB (96 percent) does. -/
theorem c3_witness :
    (reset 0 24064 ⟨5, 1024 * 25, true, [], none⟩).1 ≠ ResetOutcome.destructedMemory
    ∧ reset 0 24576 ⟨5, 1024 * 25, true, [], none⟩ =
      (ResetOutcome.destructedMemory, (⟨5, 1024 * 25, true, [], none⟩ : WatchdogPosixState)) := by
  have h := c3_memory_ceiling_boundary 25 (by norm_num) ⟨5, 1024 * 25, true, [], none⟩
    0 24064 24576 rfl rfl (by norm_num) (by norm_num)
  exact ⟨h.1, h.2.1⟩

/-! ## Claim C7: order of operations in reset -/

/-- C7.  In every reset call: if the memory check is configured and fires,
the outcome is the memory destruct with the state untouched (no append to
the activity window, no alarm).  If the memory check does not fire and the
activity check is configured and judges the window frenetic, the outcome is
the frenetic destruct with no alarm.  If neither check destructs, the final
step re-arms the alarm for duration seconds. -/
theorem c7_reset_order (s : WatchdogPosixState) (now : ℚ) (u : ℤ) :
    (s.memoryLimitEnabled = true → (u : ℚ) > memThresholdKb s.maxMemKb →
        reset now u s = (ResetOutcome.destructedMemory, s))
    ∧ (¬ ((u : ℚ) > memThresholdKb s.maxMemKb ∧ s.memoryLimitEnabled = true) →
        ∀ N : ℕ, s.maxResets = some N → N ≠ 0 →
        (isFrenetic now (s.restarts ++ [now]) N).1 = true →
        reset now u s = (ResetOutcome.destructedFrenetic,
          { s with restarts := (isFrenetic now (s.restarts ++ [now]) N).2 }))
    ∧ (¬ ((u : ℚ) > memThresholdKb s.maxMemKb ∧ s.memoryLimitEnabled = true) →
        (∀ N : ℕ, s.maxResets = some N → (isFrenetic now (s.restarts ++ [now]) N).1 = false) →
        (reset now u s).1 = ResetOutcome.rearmed s.duration) := by
  have hra : ¬ ((u : ℚ) > memThresholdKb s.maxMemKb ∧ s.memoryLimitEnabled = true) →
      reset now u s = resetActivity now s := by
    intro hmem
    by_cases hen : s.memoryLimitEnabled = true
    · exact reset_of_memory_pass (fun hgt => hmem ⟨hgt, hen⟩)
    · exact reset_of_memory_disabled (Bool.not_eq_true s.memoryLimitEnabled ▸ hen)
  refine ⟨fun hen hu => reset_of_memory_trigger hen hu, ?_, ?_⟩
  · intro hmem N hN hN0 hfren
    rw [hra hmem, resetActivity_of_truthy hN hN0, if_pos hfren]
  · intro hmem hfren
    rw [hra hmem]
    by_cases htr : truthy s.maxResets = true
    · rcases hsome : s.maxResets with _ | N
      · rw [hsome] at htr
        exact absurd htr (by simp [truthy])
      · have hN0 : N ≠ 0 := by
          rw [hsome] at htr
          simpa [truthy] using htr
        rw [resetActivity_of_truthy hsome hN0, if_neg (by simp [hfren N hsome])]
    · rw [resetActivity_of_not_truthy (Bool.not_eq_true (truthy s.maxResets) ▸ htr)]

/-- C7 witness: with the ceiling at 1000 kB a reading of 951 kB exceeds the
95 percent threshold, and reset destructs via the memory check leaving the
state untouched. -/
theorem c7_witness :
    reset 0 951 ⟨7, 1000, true, [3], some 3⟩ =
      (ResetOutcome.destructedMemory, (⟨7, 1000, true, [3], some 3⟩ : WatchdogPosixState)) := by
  exact (c7_reset_order ⟨7, 1000, true, [3], some 3⟩ 0 951).1 rfl
    (by norm_num [memThresholdKb])

/-! ## Claim C10: max_resets = 0 disables the activity check -/

/-- C10.  Because the activity branch is guarded by the truthiness of
self._max_resets, constructing with max_resets = 0 disables frenetic
monitoring entirely: a single reset never appends to the activity window
and never destructs via the activity check, and any sequence of resets
(at any cadence, all within 60 seconds or not) leaves the watchdog alive
with an empty window. -/
theorem c10_max_resets_zero :
    (∀ (s : WatchdogPosixState) (now : ℚ) (u : ℤ), s.maxResets = some 0 →
        (reset now u s).2.restarts = s.restarts
        ∧ (reset now u s).1 ≠ ResetOutcome.destructedFrenetic)
    ∧ (∀ (d : ℕ) (memKb : ℤ) (k : ℕ) (ts : List ℚ),
        runResets memKb k ts (mkActivityState d 0) = RunResult.alive (mkActivityState d 0)) := by
  constructor
  · intro s now u hmr
    have hact : resetActivity now s = (ResetOutcome.rearmed s.duration, s) :=
      resetActivity_of_not_truthy (by simp [truthy, hmr])
    by_cases hen : s.memoryLimitEnabled = true
    · by_cases hu : (u : ℚ) > memThresholdKb s.maxMemKb
      · rw [reset_of_memory_trigger hen hu]
        simp
      · rw [reset_of_memory_pass hu, hact]
        simp
    · rw [reset_of_memory_disabled (Bool.not_eq_true s.memoryLimitEnabled ▸ hen), hact]
      simp
  · intro d memKb k ts
    exact runResets_maxResetsZero memKb ts k (mkActivityState d 0) rfl rfl

/-- C10 witness: with max_resets = 0, a reset at time 100 neither touches
the recorded window nor destructs. -/
theorem c10_witness :
    (reset 100 0 ⟨5, 0, false, [1, 2], some 0⟩).2.restarts = [1, 2] := by
  exact (c10_max_resets_zero.1 ⟨5, 0, false, [1, 2], some 0⟩ 100 0 rfl).1

/-! ## Claim C6: activity-window eviction invariant -/

/-- C6.  After each frenetic check (which performs the eviction): every
remaining timestamp is at least now - 60 (only entries strictly older than
the timeframe were removed), a window that was ordered oldest-first stays
so, eviction is idempotent, and under a steady reset rate r the window
size is stable, pinned at floor(60 / r) + 1 from the floor(60 / r)-th
reset on. -/
theorem c6_window_invariant :
    (∀ (now : ℚ) (l : List ℚ), l.Sorted (· ≤ ·) →
        (∀ t ∈ flushOld now l, now - RESTART_TIMEFRAME ≤ t)
        ∧ (flushOld now l).Sorted (· ≤ ·))
    ∧ (∀ (now : ℚ) (l : List ℚ), flushOld now (flushOld now l) = flushOld now l)
    ∧ (∀ r : ℚ, 0 < r → ∀ k : ℕ, ⌊(60 : ℚ) / r⌋.toNat ≤ k →
        (steadyWindow r k).length = ⌊(60 : ℚ) / r⌋.toNat + 1) := by
  refine ⟨fun now l hs => ⟨flushOld_mem_ge now l hs, flushOld_sorted now l hs⟩,
    fun now l => flushOld_idem now l, ?_⟩
  intro r hr k hk
  rw [steadyWindow_eq_of_ge r hr k hk]
  simp

/-- C6 witness: steady rate r = 7 seconds, floor(60 / 7) = 8; from the 8th
reset on the flushed window holds exactly 9 entries. -/
theorem c6_witness : (steadyWindow 7 8).length = ⌊(60 : ℚ) / 7⌋.toNat + 1 := by
  refine c6_window_invariant.2.2 7 (by norm_num) 8 ?_
  norm_num

/-! ## Claim C4: polling-engine deadline enforcement -/

theorem winInit_natCast_fields (t0 : ℚ) (d : ℕ) :
    (winInit t0 (d : ℚ)).duration = (d : ℤ) ∧ (winInit t0 (d : ℚ)).expireAt = t0 + (d : ℚ) := by
  have hpy : pyInt (d : ℚ) = (d : ℤ) := by
    rw [pyInt, if_pos (by positivity)]
    exact_mod_cast Int.floor_natCast d
  refine ⟨?_, ?_⟩
  · rw [winInit, winReset, hpy]
  · rw [winInit, winReset, hpy]
    norm_num

theorem winSleepInterval_natCast (t0 : ℚ) (d : ℕ) :
    winSleepInterval (winInit t0 (d : ℚ)) = ((d / 20 : ℕ) : ℤ) := by
  rw [winSleepInterval, (winInit_natCast_fields t0 d).1]
  exact_mod_cast (Int.ofNat_fdiv d 20).symm

/-- C4 counterexample.  The claim asserts the background loop sleeps
d / 20 seconds between checks.  The sleep expression self._duration / 20
divides two Python 2 integers, which floor-divides: a duration-5 watchdog
sleeps 0 seconds between checks (a busy-poll), not 5 / 20 = 0.25. -/
theorem c4_counterexample_floor_division_sleep :
    winSleepInterval (winInit 0 ((5 : ℕ) : ℚ)) = 0
    ∧ (winSleepInterval (winInit 0 ((5 : ℕ) : ℚ)) : ℚ) ≠ ((5 : ℕ) : ℚ) / 20 := by
  have h := winSleepInterval_natCast 0 5
  have h5 : (5 : ℕ) / 20 = 0 := by norm_num
  rw [h5] at h
  refine ⟨by rw [h]; norm_num, by rw [h]; norm_num⟩

/-- C4 amended.  reset() sets the deadline to now plus the int-coerced
duration.  The loop sleep self._duration / 20 is integer floor division:
it equals d / 20 rounded down, in particular 0 (a busy-poll) for every
d < 20.  When d is at least 20 the poll interval s = d / 20 (floored) is
positive, checks happen at t0 + i * s, the first check strictly past the
deadline is check number d / s + 1, and it happens within d + d / 20
seconds of construction. -/
theorem c4_amended_polling_deadline (d : ℕ) (hd : 0 < d) (t0 now : ℚ) :
    (winReset now (winInit t0 (d : ℚ))).expireAt = now + ((pyInt (d : ℚ)) : ℚ)
    ∧ pyInt (d : ℚ) = (d : ℤ)
    ∧ winSleepInterval (winInit t0 (d : ℚ)) = ((d / 20 : ℕ) : ℤ)
    ∧ (d < 20 → winSleepInterval (winInit t0 (d : ℚ)) = 0)
    ∧ (20 ≤ d →
        (∀ i : ℕ, winFiresAt t0 (winInit t0 (d : ℚ)) i = true ↔ d / (d / 20) + 1 ≤ i)
        ∧ winCheckTime t0 (winInit t0 (d : ℚ)) (d / (d / 20) + 1) ≤
            t0 + (d : ℚ) + (d : ℚ) / 20) := by
  have hpy : pyInt (d : ℚ) = (d : ℤ) := by
    rw [pyInt, if_pos (by positivity)]
    exact_mod_cast Int.floor_natCast d
  have hexp := (winInit_natCast_fields t0 d).2
  have hsleep := winSleepInterval_natCast t0 d
  refine ⟨rfl, hpy, hsleep, ?_, ?_⟩
  · intro h
    have h0 : d / 20 = 0 := by omega
    rw [hsleep, h0]
    norm_num
  · intro h20
    have hs : 0 < d / 20 := Nat.div_pos h20 (by norm_num)
    have hq : d / (d / 20) * (d / 20) ≤ d := Nat.div_mul_le_self d (d / 20)
    have hlt : d < (d / (d / 20) + 1) * (d / 20) := by
      have hmod : d % (d / 20) < d / 20 := Nat.mod_lt d hs
      have hdm : (d / 20) * (d / (d / 20)) + d % (d / 20) = d := Nat.div_add_mod d (d / 20)
      calc d = (d / 20) * (d / (d / 20)) + d % (d / 20) := hdm.symm
        _ < (d / 20) * (d / (d / 20)) + (d / 20) := by omega
        _ = (d / (d / 20) + 1) * (d / 20) := by ring
    constructor
    · intro i
      rw [winFiresAt, decide_eq_true_eq, winCheckTime, hsleep, hexp, Int.cast_natCast]
      constructor
      · intro hgt
        have hnat : d < i * (d / 20) := by
          have hc : (d : ℚ) < (i : ℚ) * ((d / 20 : ℕ) : ℚ) := by linarith
          exact_mod_cast hc
        by_contra hc
        push_neg at hc
        have hle : i * (d / 20) ≤ d / (d / 20) * (d / 20) :=
          Nat.mul_le_mul_right _ (by omega)
        omega
      · intro hi
        have h1 : (d / (d / 20) + 1) * (d / 20) ≤ i * (d / 20) :=
          Nat.mul_le_mul_right _ hi
        have hnat : d < i * (d / 20) := by omega
        have hc : (d : ℚ) < (i : ℚ) * ((d / 20 : ℕ) : ℚ) := by exact_mod_cast hnat
        linarith
    · rw [winCheckTime, hsleep]
      have hb1 : (d / (d / 20) + 1) * (d / 20) ≤ d + d / 20 := by
        have e : (d / (d / 20) + 1) * (d / 20) = d / (d / 20) * (d / 20) + (d / 20) := by ring
        omega
      have hc1 : ((d / (d / 20) + 1 : ℕ) : ℚ) * ((d / 20 : ℕ) : ℚ) ≤
          (d : ℚ) + ((d / 20 : ℕ) : ℚ) := by
        exact_mod_cast hb1
      have hc2 : ((d / 20 : ℕ) : ℚ) ≤ (d : ℚ) / 20 := by exact_mod_cast Nat.cast_div_le
      rw [Int.cast_natCast]
      linarith

/-- C4 witness: duration 30 floor-divides to a 1-second poll interval; the
never-reset watchdog does not fire at check 30 (time 30.0) and fires at
check 31 (time 31.0, within 30 + 30 / 20 = 31.5 seconds of construction). -/
theorem c4_witness :
    winFiresAt 0 (winInit 0 ((30 : ℕ) : ℚ)) 31 = true
    ∧ winFiresAt 0 (winInit 0 ((30 : ℕ) : ℚ)) 30 = false := by
  have h := ((c4_amended_polling_deadline 30 (by norm_num) 0 0).2.2.2.2 (by norm_num)).1
  constructor
  · exact (h 31).mpr (by norm_num)
  · cases hb : winFiresAt 0 (winInit 0 ((30 : ℕ) : ℚ)) 30
    · rfl
    · exact absurd ((h 30).mp hb) (by norm_num)

/-! ## Claim C8: destruct is robust to logging failure -/

/-- C8.  Whatever the outcomes of the two log.error calls in the try suite
(each may succeed or raise), both destruct routines end by issuing the kill:
the last completed action of WatchdogPosix.self_destruct is always
os.kill(os.getpid(), SIGKILL), and of WatchdogWindows.destruct always
psutil.Process().kill(). -/
theorem c8_destruct_always_kills :
    ∀ log1ok log2ok : Bool,
      (selfDestructTrace log1ok log2ok).getLast? = some DestructAction.killOwnPidSigkill
      ∧ (windowsDestructTrace log1ok log2ok).getLast? =
          some DestructAction.killViaProcessHandle := by
  intro log1ok log2ok
  cases log1ok <;> cases log2ok <;>
    simp [selfDestructTrace, windowsDestructTrace, tryLogs]

/-! ## Claim C9: lock discipline of the polling engine -/

/-- C9 counterexample.  The claim states that every access to expire_at,
including the read performed by the background task in watch(), happens
while holding the lock.  The watch() loop body reads expire_at with no
acquire in scope, so the lock-discipline check fails on its event trace. -/
theorem c9_counterexample_watch_read_unlocked :
    expireAtAccessesLocked 0 winWatchIterationEvents = false := by
  decide

/-- C9 amended.  The write of expire_at performed by reset() does happen
under the lock, but the read performed by each watch() iteration does not:
the lock-discipline check passes on the reset trace and fails on the watch
trace. -/
theorem c9_amended_only_reset_locked :
    expireAtAccessesLocked 0 winResetEvents = true
    ∧ expireAtAccessesLocked 0 winWatchIterationEvents = false := by
  decide

end DdWatchdog
